import Mathlib

/-!
Verification of the RaiderPark prediction-reconciliation pipeline.

The definitions below are a shallow embedding of the Python sources:
`src/ml/inference/realtime_adjuster.py`, `src/ml/inference/calibration.py`,
`src/ml/inference/predict.py`, `src/ml/models/ensemble.py` and
`src/ml/models/base_model.py`.  Floating-point arithmetic is modelled by
exact real arithmetic; NumPy NaN sentinels are modelled by `Option ℝ`;
Python strings are modelled by `List Char` where substring operations
matter and by `String` where only equality matters.
-/

namespace RaiderPark

noncomputable section

open Classical

/-! ## Report buffer (`realtime_adjuster.py`, class `ReportBuffer`) -/

/-- One entry of `ReportBuffer._reports`: `(timestamp, value, confidence)`.
Timestamps are minutes on the real line, so `(reference_time - ts).total_seconds() / 60`
becomes plain subtraction. -/
structure Report where
  ts : ℝ
  val : ℝ
  conf : ℝ

structure ReportBuffer where
  maxSize : ℕ
  decayMinutes : ℝ
  reports : List Report

/-- Embeds `ReportBuffer.add`: append, then keep only the last `max_size` entries
(`self._reports[-self.max_size:]`). -/
def ReportBuffer.add (b : ReportBuffer) (timestamp value confidence : ℝ) : ReportBuffer :=
  let rs := b.reports ++ [⟨timestamp, value, confidence⟩]
  { b with reports := if b.maxSize < rs.length then rs.drop (rs.length - b.maxSize) else rs }

/-- The body of the report loop in `ReportBuffer.get_weighted_average`:
accumulate `(weighted_sum, total_weight)`, skipping reports whose age is
negative or beyond the window. -/
def decayAccum (ref window decay : ℝ) (s : ℝ × ℝ) (r : Report) : ℝ × ℝ :=
  let age := ref - r.ts
  if window < age ∨ age < 0 then s
  else (s.1 + Real.exp (-age / decay) * r.conf * r.val,
        s.2 + Real.exp (-age / decay) * r.conf)

/-- Embeds `ReportBuffer.get_weighted_average`.  `reference_time or datetime.now()`
becomes `referenceTime.getD now`; `window_minutes or decay*3` uses Python
truthiness, so an explicit `0` also selects the default. -/
def ReportBuffer.getWeightedAverage (b : ReportBuffer) (now : ℝ)
    (referenceTime windowMinutes : Option ℝ) : Option ℝ × ℝ :=
  if b.reports = [] then (none, 0)
  else
    let ref := referenceTime.getD now
    let window := match windowMinutes with
      | none => b.decayMinutes * 3
      | some w => if w = 0 then b.decayMinutes * 3 else w
    let acc := b.reports.foldl (decayAccum ref window b.decayMinutes) (0, 0)
    if 0 < acc.2 then (some (acc.1 / acc.2), acc.2) else (none, 0)

/-- The generator expression of `ReportBuffer.get_report_count`:
`sum(1 for ts, _, _ in self._reports if ts >= cutoff)`. -/
def countRecent (cutoff : ℝ) : List Report → ℕ
  | [] => 0
  | r :: rs => (if cutoff ≤ r.ts then 1 else 0) + countRecent cutoff rs

/-- Embeds `ReportBuffer.get_report_count` with `cutoff = now - window_minutes`. -/
def ReportBuffer.getReportCount (b : ReportBuffer) (now windowMinutes : ℝ) : ℕ :=
  countRecent (now - windowMinutes) b.reports

/-- C5: a buffer holding exactly one report of value `v` with confidence 1,
queried with a reference time exactly one half-life `h` after the report,
yields weighted average `v` with total weight `exp(-1)`. -/
theorem decay_halflife_weight (h v t0 : ℝ) (m : ℕ) (hh : 0 < h) :
    (ReportBuffer.getWeightedAverage ⟨m, h, [⟨t0, v, 1⟩]⟩ 0 (some (t0 + h)) none)
      = (some v, Real.exp (-1)) := by
  have hne : h ≠ 0 := ne_of_gt hh
  have hage : t0 + h - t0 = h := by ring
  have hskip : ¬ (h * 3 < h ∨ h < 0) := by
    push_neg
    constructor <;> nlinarith
  unfold ReportBuffer.getWeightedAverage
  simp only [decayAccum, List.foldl, Option.getD, hage]
  rw [if_neg (List.cons_ne_nil _ _), if_neg hskip]
  have hdiv : -h / h = (-1 : ℝ) := by field_simp
  simp only [hdiv, zero_add, mul_one]
  rw [if_pos (Real.exp_pos _)]
  have hexpne : Real.exp (-1) ≠ 0 := ne_of_gt (Real.exp_pos _)
  rw [Prod.mk.injEq]
  constructor
  · rw [Option.some.injEq]
    field_simp
  · rfl

/-- Witness for `decay_halflife_weight` at `decay_minutes = 30`, value 80. -/
theorem decay_halflife_weight_witness :
    (ReportBuffer.getWeightedAverage ⟨100, 30, [⟨0, 80, 1⟩]⟩ 0 (some 30) none)
      = (some 80, Real.exp (-1)) := by
  have h := decay_halflife_weight 30 80 0 100 (by norm_num)
  simpa using h

/-! ## Real-time adjuster (`realtime_adjuster.py`, class `RealtimeAdjuster`) -/

/-- A report value is either a categorical status string or a numeric occupancy. -/
inductive StatusVal where
  | strv (s : List Char)
  | numv (x : ℝ)

/-- A report dictionary as passed to `update_reports`; `none` models an absent key. -/
structure ReportDict where
  timestamp : Option ℝ
  reportedStatus : Option StatusVal
  status : Option StatusVal
  confidence : Option ℝ

/-- Embeds `RealtimeAdjuster.STATUS_TO_OCCUPANCY`. -/
def STATUS_TO_OCCUPANCY : List (List Char × ℝ) :=
  [("empty".data, 10), ("low".data, 30), ("moderate".data, 50),
   ("high".data, 75), ("full".data, 95), ("packed".data, 100)]

/-- Embeds `status.lower()`. -/
def strLower (s : List Char) : List Char := s.map Char.toLower

/-- Status resolution in `update_reports`: a string is looked up case-insensitively
with default `50.0`; a numeric value passes through. -/
def parseStatus (sv : StatusVal) : ℝ :=
  match sv with
  | .strv s => (STATUS_TO_OCCUPANCY.lookup (strLower s)).getD 50
  | .numv x => x

/-- The value stored for one report dictionary:
`report.get("reported_status", report.get("status", "moderate"))` then status
resolution; missing timestamp defaults to now; missing confidence defaults to 1. -/
def parsedReport (r : ReportDict) (now : ℝ) : Report :=
  { ts := r.timestamp.getD now
    val := parseStatus ((r.reportedStatus.orElse (fun _ => r.status)).getD (.strv "moderate".data))
    conf := r.confidence.getD 1 }

structure RealtimeAdjuster where
  adjustmentWeight : ℝ
  decayMinutes : ℝ
  minReports : ℕ
  maxAdjustment : ℝ
  buffers : List Char → Option ReportBuffer

/-- Embeds `np.clip(x, lo, hi)`. -/
def npClip (x lo hi : ℝ) : ℝ := min (max x lo) hi

/-- Embeds `RealtimeAdjuster.update_reports`: fetch (or lazily create, per the
`defaultdict`) the per-lot buffer and `add` each normalized report. -/
def RealtimeAdjuster.updateReports (a : RealtimeAdjuster) (lotId : List Char)
    (reports : List ReportDict) (now : ℝ) : RealtimeAdjuster :=
  let buf0 := (a.buffers lotId).getD ⟨100, a.decayMinutes, []⟩
  let buf := reports.foldl
    (fun b r => b.add (parsedReport r now).ts (parsedReport r now).val (parsedReport r now).conf)
    buf0
  { a with buffers := fun s => if s = lotId then some buf else a.buffers s }

/-- Embeds `RealtimeAdjuster._compute_adjustment`. -/
def RealtimeAdjuster.computeAdjustment (a : RealtimeAdjuster)
    (modelPrediction reportedValue reportWeight modelConfidence : ℝ) : ℝ :=
  let diff := reportedValue - modelPrediction
  let normalizedWeight := min 1 reportWeight
  let uncertaintyFactor := 1 - modelConfidence
  npClip (diff * a.adjustmentWeight * normalizedWeight * (0.5 + 0.5 * uncertaintyFactor))
    (-a.maxAdjustment) a.maxAdjustment

/-- Embeds `PredictionOutput` from `base_model.py` (timestamps as real minutes). -/
structure PredictionOutput where
  predictedOccupancy : ℝ
  confidence : ℝ
  lowerBound : ℝ
  upperBound : ℝ
  lotId : List Char
  timestamp : ℝ

/-- Embeds `RealtimeAdjuster.adjust_single`.  `now` stands for `datetime.now()` inside
`get_report_count`; `if recent_reports:` is Python truthiness, so `[]` skips
ingestion like `None` does. -/
def RealtimeAdjuster.adjustSingle (a : RealtimeAdjuster) (now : ℝ)
    (prediction : PredictionOutput) (recentReports : List ReportDict) : PredictionOutput :=
  let a1 := if recentReports = [] then a else a.updateReports prediction.lotId recentReports now
  match a1.buffers prediction.lotId with
  | none => prediction
  | some buffer =>
    if buffer.getReportCount now 60 < a.minReports then prediction
    else
      let wa := buffer.getWeightedAverage now (some prediction.timestamp) none
      match wa.1 with
      | none => prediction
      | some avgReported =>
        if wa.2 < 0.1 then prediction
        else
          let adjustment :=
            a.computeAdjustment prediction.predictedOccupancy avgReported wa.2 prediction.confidence
          { predictedOccupancy := npClip (prediction.predictedOccupancy + adjustment) 0 100
            confidence := prediction.confidence
            lowerBound := npClip (prediction.lowerBound + adjustment * 0.8) 0 100
            upperBound := npClip (prediction.upperBound + adjustment * 0.8) 0 100
            lotId := prediction.lotId
            timestamp := prediction.timestamp }

/-- One row of the batch-prediction DataFrame handled by `RealtimeAdjuster.adjust`. -/
structure PredRow where
  lotId : List Char
  timestamp : ℝ
  predictedOccupancy : ℝ
  confidence : ℝ
  lowerBound : ℝ
  upperBound : ℝ

/-- The per-row body of the loops in `RealtimeAdjuster.adjust`: the per-lot guards
(`buffer is None`, report count, batch-level weighted average) followed by the
per-index time-specific adjustment.  Each DataFrame index is written at most
once and `lot_id` is never modified, so the nested per-lot loop is equivalent to
this per-row update. -/
def RealtimeAdjuster.adjustRow (a : RealtimeAdjuster) (now : ℝ) (row : PredRow) : PredRow :=
  match a.buffers row.lotId with
  | none => row
  | some buffer =>
    if buffer.getReportCount now 60 < a.minReports then row
    else
      match (buffer.getWeightedAverage now none none).1 with
      | none => row
      | some _ =>
        let wa := buffer.getWeightedAverage now (some row.timestamp) (some (a.decayMinutes * 2))
        match wa.1 with
        | none => row
        | some avgAtTime =>
          if wa.2 < 0.1 then row
          else
            let adjustment :=
              a.computeAdjustment row.predictedOccupancy avgAtTime wa.2 row.confidence
            { row with
                predictedOccupancy := npClip (row.predictedOccupancy + adjustment) 0 100
                lowerBound := npClip (row.lowerBound + adjustment * 0.8) 0 100
                upperBound := npClip (row.upperBound + adjustment * 0.8) 0 100 }

/-- Embeds `RealtimeAdjuster.adjust` over the rows of the predictions table. -/
def RealtimeAdjuster.adjust (a : RealtimeAdjuster) (now : ℝ)
    (predictions : List PredRow) : List PredRow :=
  predictions.map (a.adjustRow now)

theorem npClip_le (x lo hi : ℝ) : npClip x lo hi ≤ hi := min_le_right _ _

theorem le_npClip (x lo hi : ℝ) (h : lo ≤ hi) : lo ≤ npClip x lo hi :=
  le_min (le_max_right _ _) h

/-- A buffer with two fresh, fully confident reports of value 100 for lot `l`. -/
def cbuf1 : ReportBuffer := ⟨100, 30, [⟨0, 100, 1⟩, ⟨0, 100, 1⟩]⟩

/-- A default-configured adjuster holding `cbuf1` for lot `l`. -/
def cadj1 : RealtimeAdjuster :=
  ⟨0.3, 30, 2, 25, fun s => if s = "l".data then some cbuf1 else none⟩

/-- A prediction with zero confidence whose point estimate sits on its upper bound. -/
def cpred1 : PredictionOutput := ⟨50, 0, 40, 50, "l".data, 0⟩

theorem cbuf1_count : cbuf1.getReportCount 0 60 = 2 := by
  norm_num [cbuf1, ReportBuffer.getReportCount, countRecent]

theorem cbuf1_wa : cbuf1.getWeightedAverage 0 (some 0) none = (some 100, 2) := by
  unfold cbuf1 ReportBuffer.getWeightedAverage
  rw [if_neg (List.cons_ne_nil _ _)]
  norm_num [decayAccum, List.foldl, Real.exp_zero]

theorem cadj1_adjustSingle_eval :
    cadj1.adjustSingle 0 cpred1 [] = ⟨65, 0, 52, 62, "l".data, 0⟩ := by
  unfold RealtimeAdjuster.adjustSingle
  norm_num [cadj1, cpred1, cbuf1_count, cbuf1_wa, RealtimeAdjuster.computeAdjustment,
    npClip, min_def, max_def]

/-- C1, counterexample: after a positive adjustment the shifted upper bound
(moved by `0.8 × adjustment`) falls strictly below the shifted point estimate;
no monotonicity fixup is reapplied, so `predicted ≤ upper` fails. -/
theorem adjust_single_breaks_interval_order :
    (cadj1.adjustSingle 0 cpred1 []).upperBound
      < (cadj1.adjustSingle 0 cpred1 []).predictedOccupancy := by
  rw [cadj1_adjustSingle_eval]
  norm_num

/-- C1, amended: after the shift each of the three fields is clipped to
`[0,100]` (or the prediction is returned unchanged), but the interval ordering
is not re-established. -/
theorem adjust_fields_clipped (a : RealtimeAdjuster) (now : ℝ)
    (p : PredictionOutput) (rep : List ReportDict) (r : PredRow) :
    (a.adjustSingle now p rep = p ∨
      (0 ≤ (a.adjustSingle now p rep).predictedOccupancy ∧
        (a.adjustSingle now p rep).predictedOccupancy ≤ 100 ∧
        0 ≤ (a.adjustSingle now p rep).lowerBound ∧
        (a.adjustSingle now p rep).lowerBound ≤ 100 ∧
        0 ≤ (a.adjustSingle now p rep).upperBound ∧
        (a.adjustSingle now p rep).upperBound ≤ 100)) ∧
    (a.adjustRow now r = r ∨
      (0 ≤ (a.adjustRow now r).predictedOccupancy ∧
        (a.adjustRow now r).predictedOccupancy ≤ 100 ∧
        0 ≤ (a.adjustRow now r).lowerBound ∧
        (a.adjustRow now r).lowerBound ≤ 100 ∧
        0 ≤ (a.adjustRow now r).upperBound ∧
        (a.adjustRow now r).upperBound ≤ 100)) := by
  have h100 : (0:ℝ) ≤ 100 := by norm_num
  constructor
  · unfold RealtimeAdjuster.adjustSingle
    repeat' (first | split | dsimp only)
    all_goals first
      | (left; rfl)
      | (right; exact ⟨le_npClip _ _ _ h100, npClip_le _ _ _, le_npClip _ _ _ h100,
          npClip_le _ _ _, le_npClip _ _ _ h100, npClip_le _ _ _⟩)
  · unfold RealtimeAdjuster.adjustRow
    repeat' (first | split | dsimp only)
    all_goals first
      | (left; rfl)
      | (right; exact ⟨le_npClip _ _ _ h100, npClip_le _ _ _, le_npClip _ _ _ h100,
          npClip_le _ _ _, le_npClip _ _ _ h100, npClip_le _ _ _⟩)

/-- A buffer whose two fresh reports have confidence 0.05 each, so the
time-specific weighted-average weight is exactly 0.1. -/
def cbuf2 : ReportBuffer := ⟨100, 30, [⟨0, 100, 0.05⟩, ⟨0, 100, 0.05⟩]⟩

def cadj2 : RealtimeAdjuster :=
  ⟨0.3, 30, 2, 25, fun s => if s = "l".data then some cbuf2 else none⟩

def cpred2 : PredictionOutput := ⟨0, 1, 0, 0, "l".data, 0⟩

theorem cbuf2_count : cbuf2.getReportCount 0 60 = 2 := by
  norm_num [cbuf2, ReportBuffer.getReportCount, countRecent]

theorem cbuf2_wa : cbuf2.getWeightedAverage 0 (some 0) none = (some 100, 0.1) := by
  unfold cbuf2 ReportBuffer.getWeightedAverage
  rw [if_neg (List.cons_ne_nil _ _)]
  norm_num [decayAccum, List.foldl, Real.exp_zero]

theorem cadj2_adjustSingle_eval :
    cadj2.adjustSingle 0 cpred2 [] = ⟨1.5, 1, 1.2, 1.2, "l".data, 0⟩ := by
  unfold RealtimeAdjuster.adjustSingle
  norm_num [cadj2, cpred2, cbuf2_count, cbuf2_wa, RealtimeAdjuster.computeAdjustment,
    npClip, min_def, max_def]

/-- C6, counterexample: with enough reports and a weighted-average weight of
exactly 0.1 ("does not exceed the 0.1 threshold"), `adjust_single` still
modifies the prediction, because the code only passes through when the weight
is strictly below 0.1. -/
theorem adjust_at_threshold_changes_prediction :
    (cbuf2.getWeightedAverage 0 (some 0) none).2 ≤ 0.1 ∧
    cadj2.minReports ≤ cbuf2.getReportCount 0 60 ∧
    (cadj2.adjustSingle 0 cpred2 []).predictedOccupancy ≠ cpred2.predictedOccupancy := by
  refine ⟨by rw [cbuf2_wa], by rw [cbuf2_count]; norm_num [cadj2], ?_⟩
  rw [cadj2_adjustSingle_eval]
  norm_num [cpred2]

/-- C6, amended: `adjust_single` and each row of `adjust` return the input
unchanged when the entity has no buffer, fewer than `min_reports` reports in
the 60-minute window, no qualifying report for the weighted average, or a
weighted-average weight strictly below 0.1. -/
theorem adjust_passthrough (a : RealtimeAdjuster) (now : ℝ)
    (p p2 : PredictionOutput) (r : PredRow) (bufP bufR : ReportBuffer)
    (hbp : a.buffers p.lotId = some bufP)
    (hbr : a.buffers r.lotId = some bufR)
    (hb2 : a.buffers p2.lotId = none)
    (h1 : bufP.getReportCount now 60 < a.minReports ∨
      (bufP.getWeightedAverage now (some p.timestamp) none).1 = none ∨
      (bufP.getWeightedAverage now (some p.timestamp) none).2 < 0.1)
    (h2 : bufR.getReportCount now 60 < a.minReports ∨
      (bufR.getWeightedAverage now none none).1 = none ∨
      (bufR.getWeightedAverage now (some r.timestamp) (some (a.decayMinutes * 2))).1 = none ∨
      (bufR.getWeightedAverage now (some r.timestamp) (some (a.decayMinutes * 2))).2 < 0.1) :
    a.adjustSingle now p [] = p ∧ a.adjustRow now r = r ∧ a.adjustSingle now p2 [] = p2 := by
  refine ⟨?_, ?_, ?_⟩
  · unfold RealtimeAdjuster.adjustSingle
    rw [if_pos rfl]
    simp only [hbp]
    rcases h1 with hc | hn | hw
    · rw [if_pos hc]
    · by_cases hc : bufP.getReportCount now 60 < a.minReports
      · rw [if_pos hc]
      · rw [if_neg hc]
        simp only [hn]
    · by_cases hc : bufP.getReportCount now 60 < a.minReports
      · rw [if_pos hc]
      · rw [if_neg hc]
        cases hv : (bufP.getWeightedAverage now (some p.timestamp) none).1 with
        | none => simp only [hv]
        | some v =>
          simp only [hv]
          rw [if_pos hw]
  · unfold RealtimeAdjuster.adjustRow
    simp only [hbr]
    rcases h2 with hc | hn0 | hn | hw
    · rw [if_pos hc]
    · by_cases hc : bufR.getReportCount now 60 < a.minReports
      · rw [if_pos hc]
      · rw [if_neg hc]
        simp only [hn0]
    · by_cases hc : bufR.getReportCount now 60 < a.minReports
      · rw [if_pos hc]
      · rw [if_neg hc]
        cases hv0 : (bufR.getWeightedAverage now none none).1 with
        | none => simp only [hv0]
        | some v0 =>
          simp only [hv0, hn]
    · by_cases hc : bufR.getReportCount now 60 < a.minReports
      · rw [if_pos hc]
      · rw [if_neg hc]
        cases hv0 : (bufR.getWeightedAverage now none none).1 with
        | none => simp only [hv0]
        | some v0 =>
          simp only [hv0]
          cases hv : (bufR.getWeightedAverage now (some r.timestamp)
              (some (a.decayMinutes * 2))).1 with
          | none => simp only [hv]
          | some v =>
            simp only [hv]
            rw [if_pos hw]
  · unfold RealtimeAdjuster.adjustSingle
    rw [if_pos rfl]
    simp only [hb2]

def cbufW : ReportBuffer := ⟨100, 30, [⟨0, 50, 1⟩]⟩

def cadjW : RealtimeAdjuster :=
  ⟨0.3, 30, 2, 25, fun s => if s = "l".data then some cbufW else none⟩

def cpredW : PredictionOutput := ⟨40, 0.5, 30, 50, "l".data, 0⟩

def cpredW2 : PredictionOutput := ⟨40, 0.5, 30, 50, "m".data, 0⟩

def crowW : PredRow := ⟨"l".data, 0, 40, 0.5, 30, 50⟩

/-- Witness for `adjust_passthrough` at a concrete state: one lot with a single
report (below `min_reports = 2`), another lot with no buffer at all. -/
theorem adjust_passthrough_witness :
    (cadjW.buffers "l".data = some cbufW ∧
      cadjW.buffers "m".data = none ∧
      cbufW.getReportCount 0 60 < cadjW.minReports) ∧
    cadjW.adjustSingle 0 cpredW [] = cpredW ∧
    cadjW.adjustRow 0 crowW = crowW ∧
    cadjW.adjustSingle 0 cpredW2 [] = cpredW2 := by
  have hbuf : cadjW.buffers "l".data = some cbufW := by
    unfold cadjW
    simp
  have hbuf2 : cadjW.buffers "m".data = none := by
    unfold cadjW
    simp
  have hcnt : cbufW.getReportCount 0 60 < cadjW.minReports := by
    norm_num [cbufW, cadjW, ReportBuffer.getReportCount, countRecent]
  exact ⟨⟨hbuf, hbuf2, hcnt⟩,
    adjust_passthrough cadjW 0 cpredW cpredW2 crowW cbufW cbufW hbuf hbuf hbuf2
      (Or.inl hcnt) (Or.inl hcnt)⟩

/-! ## Ingestion-order behaviour of the report buffer (C8) -/

/-- Ingest a list of reports one by one through `ReportBuffer.add`. -/
def ReportBuffer.addAll (b : ReportBuffer) (l : List Report) : ReportBuffer :=
  l.foldl (fun b r => b.add r.ts r.val r.conf) b

/-- The decayed weight contributed by one report (0 when outside the window). -/
def decayContrib (ref window d : ℝ) (r : Report) : ℝ :=
  if window < ref - r.ts ∨ ref - r.ts < 0 then 0 else Real.exp (-(ref - r.ts) / d) * r.conf

theorem decayAccum_eq (ref window d : ℝ) (s : ℝ × ℝ) (r : Report) :
    decayAccum ref window d s r
      = (s.1 + decayContrib ref window d r * r.val, s.2 + decayContrib ref window d r) := by
  unfold decayAccum decayContrib
  by_cases h : window < ref - r.ts ∨ ref - r.ts < 0
  · simp only [if_pos h]
    simp
  · simp only [if_neg h]

theorem foldl_decayAccum (ref window d : ℝ) (l : List Report) : ∀ s : ℝ × ℝ,
    l.foldl (decayAccum ref window d) s
      = (s.1 + (l.map (fun r => decayContrib ref window d r * r.val)).sum,
         s.2 + (l.map (fun r => decayContrib ref window d r)).sum) := by
  induction l with
  | nil => intro s; simp
  | cons r rs ih =>
    intro s
    rw [List.foldl_cons, decayAccum_eq, ih]
    simp [add_assoc]

/-- The weighted average depends only on the multiset of buffered reports and
the decay half-life (and not on the buffer capacity). -/
theorem getWeightedAverage_perm (b1 b2 : ReportBuffer) (now : ℝ) (ref w : Option ℝ)
    (hd : b1.decayMinutes = b2.decayMinutes) (hp : b1.reports.Perm b2.reports) :
    b1.getWeightedAverage now ref w = b2.getWeightedAverage now ref w := by
  unfold ReportBuffer.getWeightedAverage
  by_cases h1 : b1.reports = []
  · have h2 : b2.reports = [] := ((h1 ▸ hp : ([] : List Report).Perm b2.reports).symm).eq_nil
    rw [if_pos h1, if_pos h2]
  · have h2 : b2.reports ≠ [] := fun hn =>
      h1 ((hn ▸ hp : b1.reports.Perm ([] : List Report)).eq_nil)
    rw [if_neg h1, if_neg h2]
    dsimp only
    rw [← hd, foldl_decayAccum, foldl_decayAccum,
      (hp.map (fun r =>
        decayContrib (ref.getD now) _ b1.decayMinutes r * r.val)).sum_eq,
      (hp.map (fun r => decayContrib (ref.getD now) _ b1.decayMinutes r)).sum_eq]

/-- Embeds `add` keeps the whole history as long as capacity is not exceeded. -/
theorem addAll_reports (l : List Report) : ∀ b : ReportBuffer,
    b.reports.length + l.length ≤ b.maxSize → (b.addAll l).reports = b.reports ++ l := by
  induction l with
  | nil => intro b _; simp [ReportBuffer.addAll]
  | cons r rs ih =>
    intro b hlen
    have hstep : b.add r.ts r.val r.conf = ⟨b.maxSize, b.decayMinutes, b.reports ++ [r]⟩ := by
      unfold ReportBuffer.add
      have hc : ¬ b.maxSize < (b.reports ++ [(⟨r.ts, r.val, r.conf⟩ : Report)]).length := by
        simp only [List.length_append, List.length_cons, List.length_nil]
        simp only [List.length_cons] at hlen
        omega
      simp only [if_neg hc]
    show ((b.add r.ts r.val r.conf).addAll rs).reports = b.reports ++ (r :: rs)
    rw [hstep, ih ⟨b.maxSize, b.decayMinutes, b.reports ++ [r]⟩ (by
      simp only [List.length_append, List.length_cons, List.length_nil]
      simp only [List.length_cons] at hlen
      omega)]
    simp

theorem addAll_decay (l : List Report) : ∀ b : ReportBuffer,
    (b.addAll l).decayMinutes = b.decayMinutes := by
  induction l with
  | nil => intro b; rfl
  | cons r rs ih =>
    intro b
    show ((b.add r.ts r.val r.conf).addAll rs).decayMinutes = _
    rw [ih]
    unfold ReportBuffer.add
    rfl

/-- C8, amended: as long as the number of ingested reports does not exceed the
buffer capacity (so no eviction happens), the weighted-average result is
invariant under the ingestion order. -/
theorem report_order_invariance (m : ℕ) (d now : ℝ) (ref w : Option ℝ)
    (l1 l2 : List Report) (hp : l1.Perm l2) (hlen : l1.length ≤ m) :
    (ReportBuffer.addAll ⟨m, d, []⟩ l1).getWeightedAverage now ref w
      = (ReportBuffer.addAll ⟨m, d, []⟩ l2).getWeightedAverage now ref w := by
  have e1 : (ReportBuffer.addAll ⟨m, d, []⟩ l1).reports = l1 := by
    simpa using addAll_reports l1 ⟨m, d, []⟩ (by simpa using hlen)
  have e2 : (ReportBuffer.addAll ⟨m, d, []⟩ l2).reports = l2 := by
    simpa using addAll_reports l2 ⟨m, d, []⟩ (by simpa using (hp.length_eq ▸ hlen))
  refine getWeightedAverage_perm _ _ now ref w ?_ ?_
  · rw [addAll_decay, addAll_decay]
  · rw [e1, e2]
    exact hp

/-- Witness for `report_order_invariance`: two fresh reports ingested in either
order give the same weighted average. -/
theorem report_order_invariance_witness :
    ([(⟨0, 80, 1⟩ : Report), ⟨0, 20, 1⟩].Perm [⟨0, 20, 1⟩, ⟨0, 80, 1⟩]) ∧
    ([(⟨0, 80, 1⟩ : Report), ⟨0, 20, 1⟩].length ≤ 100) ∧
    (ReportBuffer.addAll ⟨100, 30, []⟩ [⟨0, 80, 1⟩, ⟨0, 20, 1⟩]).getWeightedAverage 0 (some 0) none
      = (ReportBuffer.addAll ⟨100, 30, []⟩ [⟨0, 20, 1⟩, ⟨0, 80, 1⟩]).getWeightedAverage 0 (some 0) none := by
  refine ⟨List.Perm.swap _ _ _, by norm_num, ?_⟩
  exact report_order_invariance 100 30 0 (some 0) none _ _ (List.Perm.swap _ _ _) (by norm_num)

theorem addAll_evict_eval1 :
    ReportBuffer.addAll ⟨1, 30, []⟩ [⟨0, 0, 1⟩, ⟨0, 100, 1⟩] = ⟨1, 30, [⟨0, 100, 1⟩]⟩ := by
  norm_num [ReportBuffer.addAll, ReportBuffer.add, List.foldl]

theorem addAll_evict_eval2 :
    ReportBuffer.addAll ⟨1, 30, []⟩ [⟨0, 100, 1⟩, ⟨0, 0, 1⟩] = ⟨1, 30, [⟨0, 0, 1⟩]⟩ := by
  norm_num [ReportBuffer.addAll, ReportBuffer.add, List.foldl]

theorem wa_single_fresh (v : ℝ) :
    (ReportBuffer.mk 1 30 [⟨0, v, 1⟩]).getWeightedAverage 0 (some 0) none = (some v, 1) := by
  unfold ReportBuffer.getWeightedAverage
  rw [if_neg (List.cons_ne_nil _ _)]
  norm_num [decayAccum, List.foldl, Real.exp_zero]

/-- C8, counterexample: with capacity 1, ingesting the same two reports in the
two possible orders evicts different entries, so the weighted averages differ. -/
theorem report_order_dependent_under_eviction :
    ([(⟨0, 0, 1⟩ : Report), ⟨0, 100, 1⟩].Perm [⟨0, 100, 1⟩, ⟨0, 0, 1⟩]) ∧
    (ReportBuffer.addAll ⟨1, 30, []⟩ [⟨0, 0, 1⟩, ⟨0, 100, 1⟩]).getWeightedAverage 0 (some 0) none
      ≠ (ReportBuffer.addAll ⟨1, 30, []⟩ [⟨0, 100, 1⟩, ⟨0, 0, 1⟩]).getWeightedAverage 0 (some 0) none := by
  refine ⟨List.Perm.swap _ _ _, ?_⟩
  rw [addAll_evict_eval1, addAll_evict_eval2, wa_single_fresh, wa_single_fresh]
  intro h
  have h1 : (100 : ℝ) = 0 := by
    have hfst := congrArg Prod.fst h
    simp only [Option.some.injEq] at hfst
    exact hfst
  norm_num at h1

/-! ## Report normalization defaults (C10) -/

/-- C10: `update_reports` stores (rather than rejects) a report whose status
string is not in the categorical table, using the default value 50.0; a report
with neither status key resolves to "moderate" (also 50.0); a missing
confidence defaults to 1.0. -/
theorem update_reports_status_defaults (a : RealtimeAdjuster) (lotId : List Char)
    (now : ℝ) (r1 r2 : ReportDict) (s : List Char)
    (hb : a.buffers lotId = none)
    (h1s : r1.reportedStatus = some (.strv s))
    (h1u : STATUS_TO_OCCUPANCY.lookup (strLower s) = none)
    (h1c : r1.confidence = none)
    (h2r : r2.reportedStatus = none)
    (h2s : r2.status = none) :
    (a.updateReports lotId [r1, r2] now).buffers lotId
      = some ⟨100, a.decayMinutes,
          [⟨r1.timestamp.getD now, 50, 1⟩,
           ⟨r2.timestamp.getD now, 50, r2.confidence.getD 1⟩]⟩ := by
  have hv1 : parsedReport r1 now = ⟨r1.timestamp.getD now, 50, 1⟩ := by
    unfold parsedReport parseStatus
    rw [h1s, h1c]
    simp only [Option.orElse, Option.getD]
    rw [h1u]
  have hmod : STATUS_TO_OCCUPANCY.lookup (strLower "moderate".data) = some 50 := by rfl
  have hv2 : parsedReport r2 now = ⟨r2.timestamp.getD now, 50, r2.confidence.getD 1⟩ := by
    unfold parsedReport parseStatus
    rw [h2r, h2s]
    simp only [Option.orElse, Option.getD]
    rw [hmod]
  unfold RealtimeAdjuster.updateReports
  simp only [hb, Option.getD, List.foldl, hv1, hv2]
  norm_num [ReportBuffer.add]

def cadj10 : RealtimeAdjuster := ⟨0.3, 30, 2, 25, fun _ => none⟩

def crd1 : ReportDict := ⟨some 5, some (.strv "banana".data), none, none⟩

def crd2 : ReportDict := ⟨none, none, none, some 0.7⟩

/-- Witness for `update_reports_status_defaults`: an unknown status string
("banana") and a report with no status key are both stored with value 50. -/
theorem update_reports_status_defaults_witness :
    cadj10.buffers "l".data = none ∧
    STATUS_TO_OCCUPANCY.lookup (strLower "banana".data) = none ∧
    (cadj10.updateReports "l".data [crd1, crd2] 9).buffers "l".data
      = some ⟨100, cadj10.decayMinutes,
          [⟨crd1.timestamp.getD 9, 50, 1⟩,
           ⟨crd2.timestamp.getD 9, 50, crd2.confidence.getD 1⟩]⟩ := by
  refine ⟨rfl, rfl, ?_⟩
  exact update_reports_status_defaults cadj10 "l".data 9 crd1 crd2 "banana".data
    rfl rfl rfl rfl rfl rfl

/-! ## Calibrator (`calibration.py`) -/

/-- Embeds `Calibrator` state.  The fitted isotonic / Platt models are sklearn
objects consumed only through their predict functions, modelled as abstract
function fields; the temperature path is embedded concretely. -/
structure Calibrator where
  method : String
  nBins : ℕ
  errorThreshold : ℝ
  isotonicModel : ℝ → ℝ
  plattModel : ℝ → ℝ
  temperature : ℝ
  fitted : Bool

/-- Embeds `Calibrator._apply_calibration` for one confidence value. -/
def Calibrator.applyCalibration (c : Calibrator) (x : ℝ) : ℝ :=
  if c.method = "isotonic" then c.isotonicModel x
  else if c.method = "platt" then c.plattModel x
  else
    let logits := Real.log (x / (1 - x + 1e-10))
    1 / (1 + Real.exp (-(logits / c.temperature)))

/-- Embeds `Calibrator.calibrate`: unfitted → return input unchanged; otherwise map
the confidence column through the fitted transformation. -/
def Calibrator.calibrate (c : Calibrator) (predictions : List PredRow) : List PredRow :=
  if c.fitted = false then predictions
  else predictions.map (fun r => { r with confidence := c.applyCalibration r.confidence })

/-- Embeds `Calibrator.calibrate_single`. -/
def Calibrator.calibrateSingle (c : Calibrator) (p : PredictionOutput) : PredictionOutput :=
  if c.fitted = false then p
  else
    { predictedOccupancy := p.predictedOccupancy
      confidence := c.applyCalibration p.confidence
      lowerBound := p.lowerBound
      upperBound := p.upperBound
      lotId := p.lotId
      timestamp := p.timestamp }

/-- C7: calibrating before `fit` is a non-fatal no-op — both `calibrate` and
`calibrate_single` return their input with every field unchanged. -/
theorem calibrate_unfitted_passthrough (c : Calibrator) (predictions : List PredRow)
    (p : PredictionOutput) (h : c.fitted = false) :
    c.calibrate predictions = predictions ∧ c.calibrateSingle p = p := by
  constructor
  · unfold Calibrator.calibrate
    rw [if_pos h]
  · unfold Calibrator.calibrateSingle
    rw [if_pos h]

def ccalW : Calibrator := ⟨"isotonic", 10, 10, id, id, 1, false⟩

/-- Witness for `calibrate_unfitted_passthrough` on a freshly constructed
(unfitted) calibrator. -/
theorem calibrate_unfitted_passthrough_witness :
    ccalW.fitted = false ∧
    ccalW.calibrate [crowW] = [crowW] ∧ ccalW.calibrateSingle cpredW = cpredW := by
  have h := calibrate_unfitted_passthrough ccalW [crowW] cpredW rfl
  exact ⟨rfl, h.1, h.2⟩

/-! ## Ensemble prediction combination (`ensemble.py`, `EnsembleModel.predict`) -/

/-- A fitted ridge meta-learner over the two base forecasters' outputs:
`predict([x1, x2]) = c1*x1 + c2*x2 + intercept`. -/
structure Ridge where
  c1 : ℝ
  c2 : ℝ
  intercept : ℝ

def Ridge.predictPair (m : Ridge) (x1 x2 : ℝ) : ℝ := m.c1 * x1 + m.c2 * x2 + m.intercept

/-- The `EnsembleConfig` fields that `predict` consults. -/
structure EnsembleConfig where
  strategy : String
  tftWeight : ℝ
  lgbWeight : ℝ
  confidenceMethod : String

/-- One base forecaster's outputs for one row. -/
structure BasePred where
  pred : ℝ
  conf : ℝ
  lower : ℝ
  upper : ℝ

/-- The strategy branch of `EnsembleModel.predict` for one row: the raw
combined `(point, lower, upper)` before clipping.  `meta = none` models
`self._meta_learner is None`, in which case the `stacking` condition fails and
control falls through to `weighted_avg` or the plain-average `else`. -/
def combineRaw (cfg : EnsembleConfig) (meta : Option (Ridge × Ridge × Ridge))
    (tftAvailable : Bool) (tft lgb : BasePred) : ℝ × ℝ × ℝ :=
  match meta, cfg.strategy == "stacking" with
  | some m, true =>
    (m.1.predictPair tft.pred lgb.pred,
     m.2.1.predictPair tft.lower lgb.lower,
     m.2.2.predictPair tft.upper lgb.upper)
  | _, _ =>
    if cfg.strategy = "weighted_avg" then
      let tftW := if tftAvailable then cfg.tftWeight else 0
      let lgbW := if tftAvailable then cfg.lgbWeight else 1
      let totalW := tftW + lgbW
      ((tftW / totalW) * tft.pred + (lgbW / totalW) * lgb.pred,
       (tftW / totalW) * tft.lower + (lgbW / totalW) * lgb.lower,
       (tftW / totalW) * tft.upper + (lgbW / totalW) * lgb.upper)
    else
      (0.5 * (tft.pred + lgb.pred),
       0.5 * (tft.lower + lgb.lower),
       0.5 * (tft.upper + lgb.upper))

/-- The tail of `EnsembleModel.predict` for one row: clip each combined value
to [0,100] (`_clip_predictions`), re-establish interval monotonicity with
`np.minimum`/`np.maximum`, and combine confidences. -/
def ensemblePredictOne (cfg : EnsembleConfig) (meta : Option (Ridge × Ridge × Ridge))
    (tftAvailable : Bool) (tft lgb : BasePred) : BasePred :=
  let raw := combineRaw cfg meta tftAvailable tft lgb
  let p := npClip raw.1 0 100
  let lo := npClip raw.2.1 0 100
  let hi := npClip raw.2.2 0 100
  let confidence :=
    if cfg.confidenceMethod = "min" then min tft.conf lgb.conf
    else if cfg.confidenceMethod = "avg" then 0.5 * (tft.conf + lgb.conf)
    else cfg.tftWeight * tft.conf + cfg.lgbWeight * lgb.conf
  { pred := p, conf := confidence, lower := min lo p, upper := max hi p }

/-- C3: for every strategy the combined point estimate is clipped to [0,100],
the returned bounds are the clipped raw bounds widened by `min`/`max` against
the point estimate, and consequently `0 ≤ lower ≤ pred ≤ upper ≤ 100`. -/
theorem ensemble_predict_interval (cfg : EnsembleConfig)
    (meta : Option (Ridge × Ridge × Ridge)) (tftAvailable : Bool) (tft lgb : BasePred) :
    (ensemblePredictOne cfg meta tftAvailable tft lgb).pred
        = npClip (combineRaw cfg meta tftAvailable tft lgb).1 0 100 ∧
    (ensemblePredictOne cfg meta tftAvailable tft lgb).lower
        = min (npClip (combineRaw cfg meta tftAvailable tft lgb).2.1 0 100)
            (ensemblePredictOne cfg meta tftAvailable tft lgb).pred ∧
    (ensemblePredictOne cfg meta tftAvailable tft lgb).upper
        = max (npClip (combineRaw cfg meta tftAvailable tft lgb).2.2 0 100)
            (ensemblePredictOne cfg meta tftAvailable tft lgb).pred ∧
    0 ≤ (ensemblePredictOne cfg meta tftAvailable tft lgb).lower ∧
    (ensemblePredictOne cfg meta tftAvailable tft lgb).lower
        ≤ (ensemblePredictOne cfg meta tftAvailable tft lgb).pred ∧
    (ensemblePredictOne cfg meta tftAvailable tft lgb).pred
        ≤ (ensemblePredictOne cfg meta tftAvailable tft lgb).upper ∧
    (ensemblePredictOne cfg meta tftAvailable tft lgb).upper ≤ 100 := by
  have h100 : (0:ℝ) ≤ 100 := by norm_num
  refine ⟨rfl, rfl, rfl, ?_, ?_, ?_, ?_⟩
  · exact le_min (le_npClip _ _ _ h100) (le_npClip _ _ _ h100)
  · exact min_le_right _ _
  · exact le_max_right _ _
  · exact max_le (npClip_le _ _ _) (npClip_le _ _ _)

/-! ## Stacking fit protocol (`ensemble.py`, `EnsembleModel._get_stacking_features`)

`sklearn.model_selection.KFold(n_splits=k, shuffle=True, random_state=42)`
shuffles the indices `0..n-1` into some permutation and cuts it into `k`
consecutive validation folds whose sizes are `n/k`, the first `n%k` of them one
larger.  The shuffle is modelled by quantifying over an arbitrary permutation
`perm` of `range n`.  NumPy float arrays containing NaN sentinels are modelled
as `ℕ → Option ℝ` with `none` for NaN; `np.zeros` is the constant `some 0`. -/

/-- KFold fold sizes: `np.full(k, n // k)` with the first `n % k` entries
incremented. -/
def foldSizes (n k : ℕ) : List ℕ :=
  (List.range k).map (fun f => n / k + if f < n % k then 1 else 0)

/-- Cut a list into consecutive chunks of the given sizes. -/
def splitBySizes : List ℕ → List ℕ → List (List ℕ)
  | [], _ => []
  | s :: ss, l => l.take s :: splitBySizes ss (l.drop s)

/-- The validation folds produced by `kf.split(X)` for shuffle order `perm`. -/
def kfoldValFolds (n k : ℕ) (perm : List ℕ) : List (List ℕ) :=
  splitBySizes (foldSizes n k) perm

/-- The train indices of one fold: the complement of its validation fold. -/
def kfoldTrainIdx (n : ℕ) (va : List ℕ) : List ℕ :=
  (List.range n).filter (fun i => !(va.contains i))

/-- The `(train_idx, val_idx)` pairs of the fold loop. -/
def stackingSplits (n k : ℕ) (perm : List ℕ) : List (List ℕ × List ℕ) :=
  (kfoldValFolds n k perm).map (fun va => (kfoldTrainIdx n va, va))

theorem sizes_sum_min (a m : ℕ) : ∀ k : ℕ,
    ((List.range k).map (fun f => a + if f < m then 1 else 0)).sum = k * a + min m k := by
  intro k
  induction k with
  | zero => simp
  | succ k ih =>
    rw [List.range_succ, List.map_append, List.sum_append, ih]
    simp only [List.map_cons, List.map_nil, List.sum_cons, List.sum_nil]
    by_cases h : k < m
    · rw [min_eq_right (le_of_lt h), min_eq_right h, if_pos h]
      simp only [Nat.succ_mul, Nat.add_mul, one_mul]
      omega
    · push_neg at h
      rw [min_eq_left h, min_eq_left (le_trans h (Nat.le_succ k)), if_neg (not_lt.2 h)]
      simp only [Nat.succ_mul, Nat.add_mul, one_mul]
      omega

theorem foldSizes_sum (n k : ℕ) (hk : 0 < k) : (foldSizes n k).sum = n := by
  unfold foldSizes
  rw [sizes_sum_min]
  rw [min_eq_left (le_of_lt (Nat.mod_lt n hk))]
  exact Nat.div_add_mod n k

theorem splitBySizes_flatten : ∀ (sizes : List ℕ) (l : List ℕ),
    l.length = sizes.sum → (splitBySizes sizes l).flatten = l := by
  intro sizes
  induction sizes with
  | nil =>
    intro l h
    simp only [List.sum_nil] at h
    rw [List.length_eq_zero.1 h]
    rfl
  | cons s ss ih =>
    intro l h
    simp only [List.sum_cons] at h
    show l.take s ++ (splitBySizes ss (l.drop s)).flatten = l
    rw [ih (l.drop s) (by rw [List.length_drop]; omega), List.take_append_drop]

/-- The validation folds reassemble the shuffled index list exactly. -/
theorem kfold_partition (n k : ℕ) (perm : List ℕ) (hk : 0 < k)
    (hp : perm.Perm (List.range n)) :
    (kfoldValFolds n k perm).flatten = perm := by
  apply splitBySizes_flatten
  rw [foldSizes_sum n k hk, hp.length_eq, List.length_range]

theorem kfold_disjoint (n k : ℕ) (perm : List ℕ) (hk : 0 < k)
    (hp : perm.Perm (List.range n)) :
    List.Pairwise List.Disjoint (kfoldValFolds n k perm) := by
  have hnd : (kfoldValFolds n k perm).flatten.Nodup := by
    rw [kfold_partition n k perm hk hp]
    exact hp.symm.nodup (List.nodup_range n)
  exact (List.nodup_flatten.1 hnd).2

/-- The six base-forecaster prediction functions used inside the fold loop:
each takes the train indices the fold model was fitted on and a sample index. -/
structure BaseFns where
  tftPoint : List ℕ → ℕ → ℝ
  tftLo : List ℕ → ℕ → ℝ
  tftHi : List ℕ → ℕ → ℝ
  lgbPoint : List ℕ → ℕ → ℝ
  lgbLo : List ℕ → ℕ → ℝ
  lgbHi : List ℕ → ℕ → ℝ

/-- The six out-of-fold arrays of `_get_stacking_features`. -/
structure OofState where
  tftOof : ℕ → Option ℝ
  tftLower : ℕ → Option ℝ
  tftUpper : ℕ → Option ℝ
  lgbOof : ℕ → Option ℝ
  lgbLower : ℕ → Option ℝ
  lgbUpper : ℕ → Option ℝ

/-- Embeds `np.zeros(n_samples)` for each array. -/
def initOof : OofState :=
  ⟨fun _ => some 0, fun _ => some 0, fun _ => some 0,
   fun _ => some 0, fun _ => some 0, fun _ => some 0⟩

/-- Embeds `arr[val_idx] = preds` for a fold's validation indices. -/
def setVals (arr : ℕ → Option ℝ) (va : List ℕ) (f : ℕ → ℝ) : ℕ → Option ℝ :=
  fun i => if i ∈ va then some (f i) else arr i

/-- Embeds `arr[val_idx] = np.nan`. -/
def setNone (arr : ℕ → Option ℝ) (va : List ℕ) : ℕ → Option ℝ :=
  fun i => if i ∈ va then none else arr i

/-- One iteration of the fold loop: on TFT failure only `tft_oof` is marked NaN
(the bound arrays are left untouched); on success all three TFT arrays are
written; LightGBM always trains and writes its three arrays. -/
def foldStep (fns : BaseFns) (tftFails : ℕ → Bool) (st : OofState)
    (fv : ℕ × (List ℕ × List ℕ)) : OofState :=
  let tr := fv.2.1
  let va := fv.2.2
  let st1 :=
    if tftFails fv.1 then { st with tftOof := setNone st.tftOof va }
    else
      { st with
          tftOof := setVals st.tftOof va (fns.tftPoint tr)
          tftLower := setVals st.tftLower va (fns.tftLo tr)
          tftUpper := setVals st.tftUpper va (fns.tftHi tr) }
  { st1 with
      lgbOof := setVals st1.lgbOof va (fns.lgbPoint tr)
      lgbLower := setVals st1.lgbLower va (fns.lgbLo tr)
      lgbUpper := setVals st1.lgbUpper va (fns.lgbHi tr) }

/-- Embeds `np.where(np.isnan(x), y, x)`. -/
def fillNaN (x y : ℕ → Option ℝ) : ℕ → Option ℝ :=
  fun i => match x i with
  | none => y i
  | some v => some v

/-- Embeds `EnsembleModel._get_stacking_features`: run the fold loop over the
enumerated `(train_idx, val_idx)` pairs, then — only if `np.any(np.isnan(tft_oof))`
— substitute LightGBM values for NaN entries in the three TFT arrays. -/
def getStackingFeatures (fns : BaseFns) (tftFails : ℕ → Bool) (n k : ℕ)
    (perm : List ℕ) : OofState :=
  let splits := stackingSplits n k perm
  let st := splits.enum.foldl (foldStep fns tftFails) initOof
  if (List.range n).any (fun i => (st.tftOof i).isNone) then
    { st with
        tftOof := fillNaN st.tftOof st.lgbOof
        tftLower := fillNaN st.tftLower st.lgbLower
        tftUpper := fillNaN st.tftUpper st.lgbUpper }
  else st

theorem foldStep_not_mem (fns : BaseFns) (tftFails : ℕ → Bool) (st : OofState)
    (fv : ℕ × (List ℕ × List ℕ)) (i : ℕ) (hi : i ∉ fv.2.2) :
    (foldStep fns tftFails st fv).tftOof i = st.tftOof i ∧
    (foldStep fns tftFails st fv).lgbOof i = st.lgbOof i := by
  unfold foldStep setVals setNone
  by_cases hf : tftFails fv.1
  · simp [hf, hi]
  · simp [hf, hi]

theorem foldStep_mem (fns : BaseFns) (tftFails : ℕ → Bool) (st : OofState)
    (fv : ℕ × (List ℕ × List ℕ)) (i : ℕ) (hi : i ∈ fv.2.2) :
    (foldStep fns tftFails st fv).lgbOof i = some (fns.lgbPoint fv.2.1 i) ∧
    ((foldStep fns tftFails st fv).tftOof i = none ∨
      (foldStep fns tftFails st fv).tftOof i = some (fns.tftPoint fv.2.1 i)) := by
  unfold foldStep setVals setNone
  by_cases hf : tftFails fv.1
  · simp [hf, hi]
  · simp [hf, hi]

theorem oofLoop_not_mem (fns : BaseFns) (tftFails : ℕ → Bool) :
    ∀ (splits : List (List ℕ × List ℕ)) (j : ℕ) (st : OofState) (i : ℕ),
    (∀ tv ∈ splits, i ∉ tv.2) →
    (((splits.enumFrom j).foldl (foldStep fns tftFails) st).tftOof i = st.tftOof i ∧
     ((splits.enumFrom j).foldl (foldStep fns tftFails) st).lgbOof i = st.lgbOof i) := by
  intro splits
  induction splits with
  | nil => intro j st i _; exact ⟨rfl, rfl⟩
  | cons tv rest ih =>
    intro j st i h
    rw [List.enumFrom_cons, List.foldl_cons]
    have h1 := foldStep_not_mem fns tftFails st (j, tv) i (h tv (List.mem_cons_self tv rest))
    have h2 := ih (j + 1) (foldStep fns tftFails st (j, tv)) i
      (fun tv' htv' => h tv' (List.mem_cons_of_mem _ htv'))
    exact ⟨h2.1.trans h1.1, h2.2.trans h1.2⟩

theorem oofLoop_values (fns : BaseFns) (tftFails : ℕ → Bool) :
    ∀ (splits : List (List ℕ × List ℕ)) (j : ℕ) (st : OofState)
      (tv : List ℕ × List ℕ) (i : ℕ),
    List.Pairwise (fun x y => x.2.Disjoint y.2) splits →
    tv ∈ splits → i ∈ tv.2 →
    (((splits.enumFrom j).foldl (foldStep fns tftFails) st).lgbOof i
        = some (fns.lgbPoint tv.1 i) ∧
     (((splits.enumFrom j).foldl (foldStep fns tftFails) st).tftOof i = none ∨
      ((splits.enumFrom j).foldl (foldStep fns tftFails) st).tftOof i
        = some (fns.tftPoint tv.1 i))) := by
  intro splits
  induction splits with
  | nil => intro j st tv i _ htv _; exact absurd htv (List.not_mem_nil tv)
  | cons hd rest ih =>
    intro j st tv i hpw htv hi
    rw [List.enumFrom_cons, List.foldl_cons]
    rcases List.mem_cons.1 htv with heq | hmem
    · subst heq
      have hw := foldStep_mem fns tftFails st (j, tv) i hi
      have hrest : ∀ tv' ∈ rest, i ∉ tv'.2 := by
        intro tv' htv'
        exact (List.rel_of_pairwise_cons hpw htv') hi
      have hpres := oofLoop_not_mem fns tftFails rest (j + 1)
        (foldStep fns tftFails st (j, tv)) i hrest
      refine ⟨hpres.2.trans hw.1, ?_⟩
      rcases hw.2 with h0 | h0
      · exact Or.inl (hpres.1.trans h0)
      · exact Or.inr (hpres.1.trans h0)
    · have hnot : i ∉ hd.2 := fun hin =>
        ((List.rel_of_pairwise_cons hpw hmem) hin) hi
      exact ih (j + 1) (foldStep fns tftFails st (j, hd)) tv i
        (List.pairwise_cons.1 hpw).2 hmem hi

/-- C2: for every shuffle order, the validation folds are an exhaustive,
mutually disjoint partition of the training index set, and each sample's
stored OOF prediction comes from a fold model fitted on the complement of that
sample's fold — which never contains the sample (anti-leakage).  The TFT entry
is either the fold-TFT prediction or, after a fold failure, the fold-LightGBM
prediction; both were trained without the sample. -/
theorem stacking_oof_no_leakage (fns : BaseFns) (tftFails : ℕ → Bool) (n k : ℕ)
    (perm : List ℕ) (hk : 0 < k) (hp : perm.Perm (List.range n)) :
    (kfoldValFolds n k perm).flatten.Perm (List.range n) ∧
    List.Pairwise List.Disjoint (kfoldValFolds n k perm) ∧
    ∀ tv ∈ stackingSplits n k perm, ∀ i ∈ tv.2,
      i ∉ tv.1 ∧
      (getStackingFeatures fns tftFails n k perm).lgbOof i = some (fns.lgbPoint tv.1 i) ∧
      ((getStackingFeatures fns tftFails n k perm).tftOof i = some (fns.tftPoint tv.1 i) ∨
       (getStackingFeatures fns tftFails n k perm).tftOof i = some (fns.lgbPoint tv.1 i)) := by
  have hpart : (kfoldValFolds n k perm).flatten = perm := kfold_partition n k perm hk hp
  have hflat : (kfoldValFolds n k perm).flatten.Perm (List.range n) := by
    rw [hpart]
    exact hp
  have hdisj := kfold_disjoint n k perm hk hp
  refine ⟨hflat, hdisj, ?_⟩
  intro tv htv i hi
  have hpw : List.Pairwise (fun x y => x.2.Disjoint y.2) (stackingSplits n k perm) :=
    hdisj.map _ (fun a b hab => hab)
  have hloop := oofLoop_values fns tftFails (stackingSplits n k perm) 0 initOof tv i hpw htv hi
  rw [← List.enum_eq_enumFrom] at hloop
  obtain ⟨va, hva, hfva⟩ := List.mem_map.1 htv
  have htv2 : tv.2 = va := by rw [← hfva]
  have htv1 : tv.1 = kfoldTrainIdx n va := by rw [← hfva]
  have hnottrain : i ∉ kfoldTrainIdx n va := by
    intro hmem
    have hpred := (List.mem_filter.1 hmem).2
    simp at hpred
    exact hpred (htv2 ▸ hi)
  have hin : i ∈ List.range n :=
    hflat.mem_iff.1 (List.mem_flatten.2 ⟨va, hva, htv2 ▸ hi⟩)
  refine ⟨by rw [htv1]; exact hnottrain, ?_⟩
  unfold getStackingFeatures
  dsimp only
  by_cases hany : (List.range n).any
      (fun j => ((((stackingSplits n k perm).enum).foldl
        (foldStep fns tftFails) initOof).tftOof j).isNone)
  · rw [if_pos hany]
    refine ⟨hloop.1, ?_⟩
    rcases hloop.2 with h0 | h0
    · refine Or.inr ?_
      show fillNaN _ _ i = _
      unfold fillNaN
      rw [h0]
      exact hloop.1
    · refine Or.inl ?_
      show fillNaN _ _ i = _
      unfold fillNaN
      rw [h0]
  · rw [if_neg hany]
    refine ⟨hloop.1, ?_⟩
    rcases hloop.2 with h0 | h0
    · exact absurd (List.any_eq_true.2 ⟨i, hin, by rw [h0]; rfl⟩) hany
    · exact Or.inl h0

def fnsW : BaseFns :=
  ⟨fun tr i => (tr.sum : ℝ) + i, fun _ _ => 1, fun _ _ => 2,
   fun tr i => (tr.length : ℝ) * i, fun _ _ => 3, fun _ _ => 4⟩

/-- Witness for `stacking_oof_no_leakage`: 4 samples, 2 folds, a concrete
shuffle, and TFT failing on fold 0. -/
theorem stacking_oof_no_leakage_witness :
    0 < 2 ∧ ([2, 0, 3, 1] : List ℕ).Perm (List.range 4) ∧
    ((kfoldValFolds 4 2 [2, 0, 3, 1]).flatten.Perm (List.range 4) ∧
     List.Pairwise List.Disjoint (kfoldValFolds 4 2 [2, 0, 3, 1]) ∧
     ∀ tv ∈ stackingSplits 4 2 [2, 0, 3, 1], ∀ i ∈ tv.2,
       i ∉ tv.1 ∧
       (getStackingFeatures fnsW (fun f => f == 0) 4 2 [2, 0, 3, 1]).lgbOof i
         = some (fnsW.lgbPoint tv.1 i) ∧
       ((getStackingFeatures fnsW (fun f => f == 0) 4 2 [2, 0, 3, 1]).tftOof i
           = some (fnsW.tftPoint tv.1 i) ∨
        (getStackingFeatures fnsW (fun f => f == 0) 4 2 [2, 0, 3, 1]).tftOof i
           = some (fnsW.lgbPoint tv.1 i))) :=
  ⟨by norm_num, by decide,
   stacking_oof_no_leakage fnsW (fun f => f == 0) 4 2 [2, 0, 3, 1] (by norm_num) (by decide)⟩

/-- Base predictions used for the C4 counter-run: LightGBM's fold models
return point 55, lower 20, upper 90; TFT's return point 60, lower 40, upper 80. -/
def fns4 : BaseFns :=
  ⟨fun _ _ => 60, fun _ _ => 40, fun _ _ => 80,
   fun _ _ => 55, fun _ _ => 20, fun _ _ => 90⟩

theorem stackingSplits_4 : stackingSplits 2 2 [0, 1] = [([1], [0]), ([0], [1])] := by decide

/-- C4: when TFT fails on fold 0, `_get_stacking_features` substitutes the
LightGBM OOF value for the point estimate (`tft_oof[0]` becomes `lgb_oof[0]`),
but the lower and upper bound arrays keep their `np.zeros` initialization for
that fold: only `tft_oof` was marked NaN, so the `np.isnan` masks on
`tft_lower`/`tft_upper` never match and the documented bound substitution is
dead code. -/
theorem stacking_bound_substitution_missing :
    (getStackingFeatures fns4 (fun f => f == 0) 2 2 [0, 1]).tftOof 0
      = (getStackingFeatures fns4 (fun f => f == 0) 2 2 [0, 1]).lgbOof 0 ∧
    (getStackingFeatures fns4 (fun f => f == 0) 2 2 [0, 1]).lgbOof 0 = some 55 ∧
    (getStackingFeatures fns4 (fun f => f == 0) 2 2 [0, 1]).lgbLower 0 = some 20 ∧
    (getStackingFeatures fns4 (fun f => f == 0) 2 2 [0, 1]).tftLower 0 = some 0 ∧
    (getStackingFeatures fns4 (fun f => f == 0) 2 2 [0, 1]).tftLower 0
      ≠ (getStackingFeatures fns4 (fun f => f == 0) 2 2 [0, 1]).lgbLower 0 := by
  refine ⟨?_, ?_, ?_, ?_, ?_⟩ <;>
  · unfold getStackingFeatures
    rw [stackingSplits_4]
    norm_num [List.enum_eq_enumFrom, List.enumFrom, List.foldl, foldStep, setVals, setNone,
      initOof, fillNaN, fns4, List.any, List.range_succ, List.range_zero]

/-! ## Prediction service cache invalidation (`predict.py`) -/

/-- Does `needle` occur at the start of `hay`? (the inner loop of Python's
substring test). -/
def matchesAt : List Char → List Char → Bool
  | [], _ => true
  | _ :: _, [] => false
  | a :: as, b :: bs => a == b && matchesAt as bs

/-- Python's `needle in hay` contiguous-substring test on strings. -/
def containsSeq (n : List Char) : List Char → Bool
  | [] => matchesAt n []
  | c :: t => matchesAt n (c :: t) || containsSeq n t

/-- Python's `sep.join(parts)`. -/
def joinSep (sep : List Char) : List (List Char) → List Char
  | [] => []
  | [x] => x
  | x :: xs => x ++ sep ++ joinSep sep xs

/-- Lexicographic comparison of strings, as used by Python's `sorted`. -/
def lexLe : List Char → List Char → Bool
  | [], _ => true
  | _ :: _, [] => false
  | a :: as, b :: bs => if a = b then lexLe as bs else decide (a < b)

def insertLe (x : List Char) : List (List Char) → List (List Char)
  | [] => [x]
  | y :: ys => if lexLe x y then x :: y :: ys else y :: insertLe x ys

/-- Embeds `sorted(lot_ids)` (insertion sort; only the output ordering matters). -/
def sortKeys : List (List Char) → List (List Char)
  | [] => []
  | x :: xs => insertLe x (sortKeys xs)

/-- Embeds `PredictionService._get_cache_key`:
`"_".join(sorted(lot_ids)) + "_" + start.isoformat() + "_" + end.isoformat()`
with the two timestamps already rendered as strings. -/
def getCacheKey (lotIds : List (List Char)) (startTime endTime : List Char) : List Char :=
  joinSep ['_'] (sortKeys lotIds) ++ ['_'] ++ startTime ++ ['_'] ++ endTime

/-- A cache entry value: `(creation time, predictions table)`. -/
def CacheVal : Type := ℝ × List PredRow

/-- Embeds `PredictionService._invalidate_lot_cache`: delete every key with
`lot_id in key` (substring containment). -/
def invalidateLotCache (lotId : List Char) (cache : List (List Char × CacheVal)) :
    List (List Char × CacheVal) :=
  cache.filter (fun kv => !(containsSeq lotId kv.1))

/-- The `PredictionService` state that `update_realtime_reports` touches. -/
structure PredictionService where
  adjuster : Option RealtimeAdjuster
  cache : List (List Char × CacheVal)

/-- Embeds `PredictionService.update_realtime_reports`: if the real-time adjuster is
enabled, delegate the report batch to it and invalidate this lot's cache keys. -/
def PredictionService.updateRealtimeReports (svc : PredictionService) (lotId : List Char)
    (reports : List ReportDict) (now : ℝ) : PredictionService :=
  match svc.adjuster with
  | none => svc
  | some a =>
    { adjuster := some (a.updateReports lotId reports now)
      cache := invalidateLotCache lotId svc.cache }

theorem matchesAt_self_append : ∀ (n r : List Char), matchesAt n (n ++ r) = true := by
  intro n
  induction n with
  | nil => intro r; rfl
  | cons a as ih =>
    intro r
    show (a == a && matchesAt as (as ++ r)) = true
    rw [ih r]
    simp

theorem matchesAt_append_right : ∀ (n s r : List Char),
    matchesAt n s = true → matchesAt n (s ++ r) = true := by
  intro n
  induction n with
  | nil => intro s r _; rfl
  | cons a as ih =>
    intro s r h
    cases s with
    | nil => exact absurd h (by simp [matchesAt])
    | cons b bs =>
      have h' := h
      simp only [matchesAt, Bool.and_eq_true] at h'
      show (a == b && matchesAt as (bs ++ r)) = true
      rw [ih bs r h'.2]
      simp [h'.1]

theorem containsSeq_nil_left (h : List Char) : containsSeq [] h = true := by
  cases h <;> rfl

theorem containsSeq_append_right : ∀ (n x r : List Char),
    containsSeq n x = true → containsSeq n (x ++ r) = true := by
  intro n x
  induction x with
  | nil =>
    intro r h
    have hn : n = [] := by
      cases n with
      | nil => rfl
      | cons a as => exact absurd h (by simp [containsSeq, matchesAt])
    rw [hn]
    exact containsSeq_nil_left r
  | cons c t ih =>
    intro r h
    simp only [containsSeq, Bool.or_eq_true] at h
    show (matchesAt n (c :: (t ++ r)) || containsSeq n (t ++ r)) = true
    rcases h with h | h
    · rw [show c :: (t ++ r) = (c :: t) ++ r from rfl, matchesAt_append_right n (c :: t) r h]
      simp
    · rw [ih r h]
      simp

theorem containsSeq_append_left : ∀ (x n t : List Char),
    containsSeq n t = true → containsSeq n (x ++ t) = true := by
  intro x
  induction x with
  | nil => intro n t h; exact h
  | cons c cs ih =>
    intro n t h
    show (matchesAt n (c :: (cs ++ t)) || containsSeq n (cs ++ t)) = true
    rw [ih n t h]
    simp

theorem containsSeq_self_append (n r : List Char) : containsSeq n (n ++ r) = true := by
  cases hn : n ++ r with
  | nil =>
    have hn0 : n = [] := (List.append_eq_nil.1 hn).1
    rw [hn0]
    rfl
  | cons c t =>
    show (matchesAt n (c :: t) || containsSeq n t) = true
    rw [← hn, matchesAt_self_append]
    simp

theorem containsSeq_mem_joinSep (sep : List Char) :
    ∀ (l : List (List Char)) (a : List Char), a ∈ l →
    containsSeq a (joinSep sep l) = true := by
  intro l
  induction l with
  | nil => intro a ha; exact absurd ha (List.not_mem_nil a)
  | cons x xs ih =>
    intro a ha
    cases xs with
    | nil =>
      have hax : a = x := by
        rcases List.mem_cons.1 ha with h | h
        · exact h
        · exact absurd h (List.not_mem_nil a)
      rw [hax]
      show containsSeq x x = true
      have := containsSeq_self_append x []
      rwa [List.append_nil] at this
    | cons y ys =>
      show containsSeq a (x ++ sep ++ joinSep sep (y :: ys)) = true
      rcases List.mem_cons.1 ha with h | h
      · rw [h, List.append_assoc]
        exact containsSeq_self_append x _
      · exact containsSeq_append_left (x ++ sep) _ _ (ih a h)

theorem mem_insertLe (x a : List Char) : ∀ l, a ∈ insertLe x l ↔ a = x ∨ a ∈ l := by
  intro l
  induction l with
  | nil => simp [insertLe]
  | cons y ys ih =>
    show a ∈ (if lexLe x y then x :: y :: ys else y :: insertLe x ys) ↔ _
    by_cases h : lexLe x y
    · rw [if_pos h]
      simp
    · rw [if_neg h]
      simp only [List.mem_cons, ih]
      tauto

theorem mem_sortKeys (a : List Char) : ∀ l, a ∈ sortKeys l ↔ a ∈ l := by
  intro l
  induction l with
  | nil => simp [sortKeys]
  | cons x xs ih =>
    show a ∈ insertLe x (sortKeys xs) ↔ _
    rw [mem_insertLe, ih]
    simp

/-- The entity id is a substring of every cache key built from a lot set
containing it. -/
theorem containsSeq_getCacheKey (lotId : List Char) (lots : List (List Char))
    (s e : List Char) (h : lotId ∈ lots) :
    containsSeq lotId (getCacheKey lots s e) = true := by
  unfold getCacheKey
  rw [List.append_assoc, List.append_assoc, List.append_assoc]
  exact containsSeq_append_right _ _ _
    (containsSeq_mem_joinSep ['_'] (sortKeys lots) lotId ((mem_sortKeys lotId lots).2 h))

/-- C9, amended: `update_realtime_reports` filters the cache by substring
containment of the entity id in the key.  Every entry whose key was built from
a lot set containing the entity is removed, and every entry whose key does not
contain the id as a substring is retained — but containment, not key
structure, is what decides, so a key can be removed merely because the id
occurs inside another lot's id or the time component. -/
theorem update_reports_cache_invalidation (svc : PredictionService)
    (a : RealtimeAdjuster) (lotId : List Char) (reports : List ReportDict) (now : ℝ)
    (ha : svc.adjuster = some a) :
    (svc.updateRealtimeReports lotId reports now).cache
        = svc.cache.filter (fun kv => !(containsSeq lotId kv.1)) ∧
    (∀ (lots : List (List Char)) (s e : List Char) (v : CacheVal), lotId ∈ lots →
      (getCacheKey lots s e, v) ∉ (svc.updateRealtimeReports lotId reports now).cache) ∧
    (∀ kv ∈ svc.cache, containsSeq lotId kv.1 = false →
      kv ∈ (svc.updateRealtimeReports lotId reports now).cache) := by
  have hcache : (svc.updateRealtimeReports lotId reports now).cache
      = svc.cache.filter (fun kv => !(containsSeq lotId kv.1)) := by
    unfold PredictionService.updateRealtimeReports
    rw [ha]
    rfl
  refine ⟨hcache, ?_, ?_⟩
  · intro lots s e v hmem hin
    rw [hcache] at hin
    have hpred := (List.mem_filter.1 hin).2
    rw [containsSeq_getCacheKey lotId lots s e hmem] at hpred
    simp at hpred
  · intro kv hkv h
    rw [hcache]
    exact List.mem_filter.2 ⟨hkv, by rw [h]; rfl⟩

/-- A service whose cache holds one entry for the single lot "ab". -/
def csvc9 : PredictionService :=
  ⟨some cadj10, [(getCacheKey ["ab".data] "x".data "y".data, (0, []))]⟩

/-- Witness for `update_reports_cache_invalidation` on `csvc9` with a report
update for lot "ab" itself. -/
theorem update_reports_cache_invalidation_witness :
    csvc9.adjuster = some cadj10 ∧
    (csvc9.updateRealtimeReports "ab".data [] 0).cache
        = csvc9.cache.filter (fun kv => !(containsSeq "ab".data kv.1)) ∧
    (∀ (lots : List (List Char)) (s e : List Char) (v : CacheVal), "ab".data ∈ lots →
      (getCacheKey lots s e, v) ∉ (csvc9.updateRealtimeReports "ab".data [] 0).cache) ∧
    (∀ kv ∈ csvc9.cache, containsSeq "ab".data kv.1 = false →
      kv ∈ (csvc9.updateRealtimeReports "ab".data [] 0).cache) := by
  have h := update_reports_cache_invalidation csvc9 cadj10 "ab".data [] 0 rfl
  exact ⟨rfl, h.1, h.2.1, h.2.2⟩

/-- C9, counterexample: a report update for entity "a" deletes the cache entry
whose key references only the unrelated lot "ab", because "a" is a substring
of that key. -/
theorem update_reports_cache_over_invalidation :
    ("a".data ∉ (["ab".data] : List (List Char))) ∧
    (csvc9.updateRealtimeReports "a".data [] 0).cache = [] := by
  constructor
  · decide
  · rfl

end

end RaiderPark
